import Mathlib

/-
Verification of the Tilt-Escape simulation core (tilt_escape.hpp / Game.cpp).

Shallow embedding conventions:
* glm float vectors are modelled exactly over ℚ (`Vec2`); float arithmetic is
  modelled by exact rational arithmetic.
* `glm::length(v) < r` (a comparison against a square root) is modelled by the
  equivalent exact condition `0 < r ∧ v.x^2 + v.y^2 < r^2`.
* fallible operations (out-of-bounds vector indexing, `std::deque::front` on an
  empty deque) are modelled with `Option`, `none` standing for the C++
  undefined behaviour.
* the random sources (`std::rand`, the guard-local `std::mt19937`) are modelled
  as oracle arguments that the theorems quantify over.
-/

namespace TiltEscape

/-- Exact model of `glm::vec2`. -/
structure Vec2 where
  x : ℚ
  y : ℚ
deriving DecidableEq, Repr

def Vec2.add (a b : Vec2) : Vec2 := ⟨a.x + b.x, a.y + b.y⟩

def Vec2.sub (a b : Vec2) : Vec2 := ⟨a.x - b.x, a.y - b.y⟩

/-- scalar multiplication `v * s` (componentwise, as glm does). -/
def Vec2.smul (s : ℚ) (a : Vec2) : Vec2 := ⟨s * a.x, s * a.y⟩

def Vec2.zero : Vec2 := ⟨0, 0⟩

/-- squared Euclidean norm. -/
def Vec2.sqrNorm (a : Vec2) : ℚ := a.x ^ 2 + a.y ^ 2

instance : Add Vec2 := ⟨Vec2.add⟩
instance : Sub Vec2 := ⟨Vec2.sub⟩

theorem Vec2.add_def (a b : Vec2) : a + b = ⟨a.x + b.x, a.y + b.y⟩ := rfl

theorem Vec2.sub_def (a b : Vec2) : a - b = ⟨a.x - b.x, a.y - b.y⟩ := rfl

/-- Exact model of the float comparison `glm::length(v) < r`:
for `r > 0` it is equivalent to `‖v‖² < r²`, and for `r ≤ 0` it is false
because a norm is nonnegative. -/
def lengthLt (v : Vec2) (r : ℚ) : Bool :=
  decide (0 < r ∧ Vec2.sqrNorm v < r ^ 2)

/-- `Wall : Entity` — position plus axis-aligned box extent (tilt_escape.hpp:41). -/
structure Wall where
  position : Vec2
  size : Vec2
deriving DecidableEq, Repr

/-- `Player : Entity` (tilt_escape.hpp:53). -/
structure Player where
  position : Vec2
  radius : ℚ
  velocity : Vec2
deriving DecidableEq, Repr

/-- The default-constructed `Player()` : position (0,0), radius 0.5, velocity 0. -/
def Player.default : Player := ⟨Vec2.zero, 1 / 2, Vec2.zero⟩

/-- `Level::at` (tilt_escape.hpp:412-423).  The row-major character matrix is a
list of rows.  The C++ body indexes `level_matrix[row][col]` after checking
`row < level_matrix.size()` and `col < level_matrix[0].size()`; the inner
access is modelled with `List.get?`, `none` standing for an out-of-bounds
(undefined-behaviour) access.  `level_matrix[0]` is only evaluated after the
short-circuiting `row < size()` guarantees the matrix is non-empty, which
`List.headD` reproduces on all defined inputs. -/
def levelAt (level_matrix : List (List Char)) (row col : ℤ) : Option Char :=
  if 0 ≤ row ∧ 0 ≤ col then
    if row.toNat < level_matrix.length ∧ col.toNat < (level_matrix.headD []).length then
      (level_matrix.get? row.toNat).bind (fun r => r.get? col.toNat)
    else
      some (Char.ofNat 0)
  else
    some (Char.ofNat 0)

/-- `Level::fell_in_hole` (tilt_escape.hpp:475-488): for every hole cell, test
whether `player.position + 0.5` lies strictly inside the hole's unit cell. -/
def fell_in_hole (player : Player) (holes : List Vec2) : Bool :=
  holes.any fun h =>
    let player_center : Vec2 := ⟨player.position.x + 1 / 2, player.position.y + 1 / 2⟩
    decide (h.x < player_center.x ∧ player_center.x < h.x + 1) &&
      decide (h.y < player_center.y ∧ player_center.y < h.y + 1)

/-- `Game::game_over` (Game.cpp:978-990); `board_size` is the `glm::uvec2`
member, modelled as a pair of naturals. -/
def game_over (board_size : ℕ × ℕ) (player_position : Vec2) : Bool :=
  if player_position.x < 0 ∨ ((board_size.1 : ℚ) + 1) < player_position.x then
    true
  else if player_position.y < 0 ∨ ((board_size.2 : ℚ) + 1) < player_position.y then
    true
  else
    false

/-- C3: the claim says `at(row, col)` is total even on ragged matrices and
"never performs an out-of-bounds access".  On the ragged matrix
`[['a','b'], ['c']]` the query `at 1 1` passes both bounds checks (the column
bound is tested against row 0's length, 2) and then reads `level_matrix[1][1]`,
which does not exist: an out-of-bounds access (`none` in the embedding).
Moreover, on `[['a'], ['b','c']]` the cell (1,1) stores 'c' but `at` returns
the sentinel because the column bound is tested against row 0's length, 1. -/
theorem level_at_ragged_out_of_bounds :
    levelAt [['a', 'b'], ['c']] 1 1 = none ∧
    levelAt [['a'], ['b', 'c']] 1 1 = some (Char.ofNat 0) ∧
    (([['a'], ['b', 'c']].get? 1).bind (fun r => r.get? 1)) = some 'c' := by
  refine ⟨?_, ?_, ?_⟩ <;> rfl

/-- C4: `fell_in_hole` returns true iff some hole's unit square strictly
contains `player.position + 0.5` on both axes; points exactly on a cell edge
fail the strict inequalities and never count. -/
theorem fell_in_hole_iff (player : Player) (holes : List Vec2) :
    fell_in_hole player holes = true ↔
      ∃ h ∈ holes,
        h.x < player.position.x + 1 / 2 ∧ player.position.x + 1 / 2 < h.x + 1 ∧
        h.y < player.position.y + 1 / 2 ∧ player.position.y + 1 / 2 < h.y + 1 := by
  simp only [fell_in_hole, List.any_eq_true, Bool.and_eq_true, decide_eq_true_eq]
  constructor
  · rintro ⟨h, hmem, ⟨h1, h2⟩, h3, h4⟩
    exact ⟨h, hmem, h1, h2, h3, h4⟩
  · rintro ⟨h, hmem, h1, h2, h3, h4⟩
    exact ⟨h, hmem, ⟨h1, h2⟩, h3, h4⟩

/-- C5: `game_over` is true exactly when the player's X or Y coordinate is
strictly outside the closed interval `[0, board_size + 1]` on that axis; in
particular (for any Y coordinate `q`) it is true at `X = -0.01`, true at
`X = board_size.x + 1.01`, and at `X = board_size.x + 1.0` exactly it depends
only on the Y test (the X boundary is inclusive). -/
theorem game_over_iff (bs : ℕ × ℕ) (p : Vec2) :
    (game_over bs p = true ↔
      (¬(0 ≤ p.x ∧ p.x ≤ (bs.1 : ℚ) + 1) ∨ ¬(0 ≤ p.y ∧ p.y ≤ (bs.2 : ℚ) + 1))) ∧
    game_over bs ⟨-(1 / 100), p.y⟩ = true ∧
    game_over bs ⟨(bs.1 : ℚ) + 101 / 100, p.y⟩ = true ∧
    (game_over bs ⟨(bs.1 : ℚ) + 1, p.y⟩ = true ↔
      ¬(0 ≤ p.y ∧ p.y ≤ (bs.2 : ℚ) + 1)) := by
  refine ⟨?_, ?_, ?_, ?_⟩
  · simp only [game_over]
    split_ifs with h1 h2
    · simp only [true_iff]
      left
      push_neg
      intro h0
      rcases h1 with h | h
      · exact absurd h0 (not_le.2 h)
      · exact h
    · simp only [true_iff]
      right
      push_neg
      intro h0
      rcases h2 with h | h
      · exact absurd h0 (not_le.2 h)
      · exact h
    · simp only [false_iff]
      push_neg at h1 h2
      push_neg
      exact ⟨h1, h2⟩
  · simp only [game_over]
    have : (-(1 / 100) : ℚ) < 0 := by norm_num
    rw [if_pos (Or.inl this)]
  · simp only [game_over]
    have : ((bs.1 : ℚ) + 1) < (bs.1 : ℚ) + 101 / 100 := by norm_num
    rw [if_pos (Or.inr this)]
  · simp only [game_over]
    have hnot : ¬(((bs.1 : ℚ) + 1) < 0 ∨ ((bs.1 : ℚ) + 1) < (bs.1 : ℚ) + 1) := by
      push_neg
      constructor
      · positivity
      · exact le_refl _
    rw [if_neg hnot]
    split_ifs with h2
    · simp only [true_iff]
      push_neg
      intro h0
      rcases h2 with h | h
      · exact absurd h0 (not_le.2 h)
      · exact h
    · simp only [false_iff]
      push_neg at h2
      push_neg
      exact h2

/-- The collision tie-break enumeration `Direction` (tilt_escape.hpp:239-241). -/
inductive Direction where
  | UP
  | RIGHT
  | DOWN
  | LEFT
deriving DecidableEq, Repr

/-- The integer value of each `Direction` enumerator (UP = 0, RIGHT = 1,
DOWN = 2, LEFT = 3, the C++ declaration order). -/
def Direction.idx : Direction → ℤ
  | .UP => 0
  | .RIGHT => 1
  | .DOWN => 2
  | .LEFT => 3

/-- `vector_direction` (tilt_escape.hpp:246-268), with the 4-iteration loop
unrolled.  The compass dot products `dot(normalize(t), compass[i])` for UP
(0,1), RIGHT (1,0), DOWN (0,-1), LEFT (-1,0) are `t.y/‖t‖`, `t.x/‖t‖`,
`-t.y/‖t‖`, `-t.x/‖t‖`; every comparison the loop makes (a dot against the
running maximum, which is 0 or an earlier dot) is invariant under dropping the
shared positive factor `1/‖t‖`, so the loop is embedded over the raw
components (for `t = 0`, where the C++ dots are NaN, every `NaN > max`
comparison is false exactly as every `0 > max` is here).  `max` starts at 0
and `best_match` at `GLuint(-1)`; the result is the `best_match` value, -1
standing for the out-of-range enum cast of the sentinel. -/
def vector_direction (t : Vec2) : ℤ :=
  let m0 : ℚ := 0
  let b0 : ℤ := -1
  let m1 : ℚ := if m0 < t.y then t.y else m0
  let b1 : ℤ := if m0 < t.y then 0 else b0
  let m2 : ℚ := if m1 < t.x then t.x else m1
  let b2 : ℤ := if m1 < t.x then 1 else b1
  let m3 : ℚ := if m2 < -t.y then -t.y else m2
  let b3 : ℤ := if m2 < -t.y then 2 else b2
  let b4 : ℤ := if m3 < -t.x then 3 else b3
  b4

/-- C6: `vector_direction` picks, among the four cardinal dot products
(UP `t.y`, RIGHT `t.x`, DOWN `-t.y`, LEFT `-t.x`, up to the positive
normalisation factor), the greatest one, scanning in that fixed order with
exact ties resolved first-match-wins: the winner's dot is strictly positive,
strictly greater than every earlier dot, and at least every later dot.  When
no cardinal dot is strictly positive, no candidate updates the running
maximum 0 and the function returns the sentinel -1, which lies outside the
four valid `Direction` values. -/
theorem vector_direction_spec (t : Vec2) :
    ((vector_direction t = Direction.idx .UP ↔
        0 < t.y ∧ t.x ≤ t.y ∧ -t.y ≤ t.y ∧ -t.x ≤ t.y) ∧
      (vector_direction t = Direction.idx .RIGHT ↔
        0 < t.x ∧ t.y < t.x ∧ -t.y ≤ t.x ∧ -t.x ≤ t.x) ∧
      (vector_direction t = Direction.idx .DOWN ↔
        0 < -t.y ∧ t.y < -t.y ∧ t.x < -t.y ∧ -t.x ≤ -t.y) ∧
      (vector_direction t = Direction.idx .LEFT ↔
        0 < -t.x ∧ t.y < -t.x ∧ t.x < -t.x ∧ -t.y < -t.x) ∧
      (vector_direction t = -1 ↔
        t.y ≤ 0 ∧ t.x ≤ 0 ∧ -t.y ≤ 0 ∧ -t.x ≤ 0)) ∧
    (∀ d : Direction, Direction.idx d ≠ -1) := by
  refine ⟨?_, fun d => by cases d <;> decide⟩
  simp only [vector_direction, Direction.idx]
  split_ifs <;>
    refine ⟨⟨fun hvd => ?_, fun hvd => ?_⟩, ⟨fun hvd => ?_, fun hvd => ?_⟩,
      ⟨fun hvd => ?_, fun hvd => ?_⟩, ⟨fun hvd => ?_, fun hvd => ?_⟩,
      ⟨fun hvd => ?_, fun hvd => ?_⟩⟩ <;>
    first
      | exact absurd hvd (by decide)
      | rfl
      | (refine ⟨by linarith, by linarith, by linarith, by linarith⟩)
      | (exfalso; obtain ⟨ha, hb, hc, hd⟩ := hvd; linarith)

/-- The circle center `player.position + player.radius` of
`Level::check_wall_collision` (tilt_escape.hpp:428): glm adds the scalar to
both components. -/
def Player.center (p : Player) : Vec2 :=
  ⟨p.position.x + p.radius, p.position.y + p.radius⟩

/-- `aabb_half_extents` (tilt_escape.hpp:429). -/
def Wall.half_extents (w : Wall) : Vec2 :=
  ⟨w.size.x / 2, w.size.y / 2⟩

/-- `aabb_center` (tilt_escape.hpp:430-433). -/
def Wall.aabb_center (w : Wall) : Vec2 :=
  ⟨w.position.x + w.half_extents.x, w.position.y + w.half_extents.y⟩

/-- `glm::clamp x lo hi = min (max x lo) hi`, one component, written with
plain conditionals so that it evaluates by kernel reduction. -/
def clampQ (x lo hi : ℚ) : ℚ :=
  let m := if x ≤ lo then lo else x
  if m ≤ hi then m else hi

theorem clampQ_eq (x lo hi : ℚ) : clampQ x lo hi = min (max x lo) hi := by
  rw [min_def, max_def]
  rfl

/-- The clamped closest point `aabb_center + clamped`
(tilt_escape.hpp:435-436). -/
def closest_point (p : Player) (w : Wall) : Vec2 :=
  let difference := Vec2.sub p.center w.aabb_center
  ⟨w.aabb_center.x + clampQ difference.x (-w.half_extents.x) w.half_extents.x,
   w.aabb_center.y + clampQ difference.y (-w.half_extents.y) w.half_extents.y⟩

/-- The result tuple `Collision = (GLboolean, Direction, glm::vec2)`
(tilt_escape.hpp:243); the `Direction` component is kept as its integer value
so that the out-of-range sentinel cast from `GLuint(-1)` is representable. -/
structure Collision where
  hit : Bool
  dir : ℤ
  diff : Vec2
deriving DecidableEq, Repr

/-- `Level::check_wall_collision` (tilt_escape.hpp:426-447).  Note that the
local `difference` is reassigned to `closest - player_center` before the test,
so both the direction and the returned vector are computed from that
re-computed difference, not from the original `player_center - aabb_center`. -/
def check_wall_collision (p : Player) (w : Wall) : Collision :=
  let difference := Vec2.sub (closest_point p w) p.center
  if lengthLt difference p.radius then
    ⟨true, vector_direction difference, difference⟩
  else
    ⟨false, Direction.idx .UP, Vec2.zero⟩

/-- The pre-clamp difference `player_center - aabb_center`
(tilt_escape.hpp:434), the vector the claim calls "the raw (non-clamped)
difference vector". -/
def raw_difference (p : Player) (w : Wall) : Vec2 :=
  Vec2.sub p.center w.aabb_center

/-- Counterexample player: position (-3/4, 0), radius 1/2 — overlapping the
left side of the unit wall at the origin. -/
def c2Player : Player := ⟨⟨-(3 / 4), 0⟩, 1 / 2, Vec2.zero⟩

/-- Counterexample wall: the unit box at the origin. -/
def c2Wall : Wall := ⟨⟨0, 0⟩, ⟨1, 1⟩⟩

/-- C2 counterexample: with the player overlapping the left side of the unit
wall, `check_wall_collision` reports a collision whose direction is RIGHT —
the direction of the re-computed difference `closest - player_center`
= (1/4, 0) — while the raw (non-clamped) difference
`player_center - aabb_center` = (-3/4, 0) points LEFT, so the claim's
direction is not the one reported. -/
theorem check_wall_collision_raw_direction_cex :
    (check_wall_collision c2Player c2Wall).hit = true ∧
    (check_wall_collision c2Player c2Wall).dir = Direction.idx .RIGHT ∧
    vector_direction (raw_difference c2Player c2Wall) = Direction.idx .LEFT ∧
    (check_wall_collision c2Player c2Wall).dir ≠
      vector_direction (raw_difference c2Player c2Wall) := by
  have hc : check_wall_collision c2Player c2Wall = ⟨true, 1, ⟨1 / 4, 0⟩⟩ := by
    norm_num [check_wall_collision, closest_point, clampQ, lengthLt, Vec2.sqrNorm,
      Vec2.sub, Player.center, Wall.aabb_center, Wall.half_extents, c2Player, c2Wall,
      vector_direction]
  have hraw : vector_direction (raw_difference c2Player c2Wall) = 3 := by
    norm_num [vector_direction, raw_difference, Vec2.sub, Player.center,
      Wall.aabb_center, Wall.half_extents, c2Player, c2Wall]
  rw [hc, hraw]
  refine ⟨rfl, rfl, rfl, by decide⟩

/-- a point lies in the (closed) axis-aligned box of a wall. -/
def inBox (q : Vec2) (w : Wall) : Prop :=
  w.position.x ≤ q.x ∧ q.x ≤ w.position.x + w.size.x ∧
  w.position.y ≤ q.y ∧ q.y ≤ w.position.y + w.size.y

theorem clampQ_le (x lo hi : ℚ) (h : lo ≤ hi) :
    lo ≤ clampQ x lo hi ∧ clampQ x lo hi ≤ hi := by
  rw [clampQ_eq]
  constructor
  · exact le_min (le_max_right x lo) h
  · exact min_le_right _ _

theorem clampQ_nearest (x lo hi q : ℚ) (hq1 : lo ≤ q) (hq2 : q ≤ hi) :
    (clampQ x lo hi - x) ^ 2 ≤ (q - x) ^ 2 := by
  have hlohi : lo ≤ hi := hq1.trans hq2
  rw [clampQ_eq]
  rcases le_or_lt x lo with hx | hx
  · rw [max_eq_right hx, min_eq_left hlohi]
    nlinarith [mul_nonneg (sub_nonneg.2 hq1) (by linarith : (0 : ℚ) ≤ q + lo - 2 * x)]
  · rcases le_or_lt x hi with hx2 | hx2
    · rw [max_eq_left hx.le, min_eq_left hx2]
      nlinarith [sq_nonneg (q - x)]
    · rw [max_eq_left hx.le, min_eq_right hx2.le]
      nlinarith [mul_nonneg (sub_nonneg.2 hq2) (by linarith : (0 : ℚ) ≤ 2 * x - q - hi)]

theorem add_clampQ (c x lo hi : ℚ) :
    c + clampQ x lo hi = clampQ (c + x) (c + lo) (c + hi) := by
  rw [clampQ_eq, clampQ_eq, ← min_add_add_left, ← max_add_add_left]

theorem closest_point_x (p : Player) (w : Wall) :
    (closest_point p w).x = clampQ p.center.x w.position.x (w.position.x + w.size.x) := by
  simp only [closest_point, Vec2.sub]
  rw [add_clampQ]
  congr 1 <;> simp only [Wall.aabb_center, Wall.half_extents] <;> ring

theorem closest_point_y (p : Player) (w : Wall) :
    (closest_point p w).y = clampQ p.center.y w.position.y (w.position.y + w.size.y) := by
  simp only [closest_point, Vec2.sub]
  rw [add_clampQ]
  congr 1 <;> simp only [Wall.aabb_center, Wall.half_extents] <;> ring

/-- C2 (amended): `check_wall_collision` computes the circle center as
`player.position + player.radius` on both axes, clamps the center-to-center
difference to the half-extents to obtain the closest point of the box (proved
here: that point lies in the box and minimises the squared distance to the
circle center), reports a collision exactly when that closest point is
strictly closer to the circle center than `player.radius`, and on collision
reports the compass direction of — and returns — the re-computed difference
vector `closest - player_center` (not the raw pre-clamp difference); on no
collision it returns `(false, UP, (0,0))`. -/
theorem check_wall_collision_characterization (p : Player) (w : Wall)
    (hx : 0 ≤ w.size.x) (hy : 0 ≤ w.size.y) :
    inBox (closest_point p w) w ∧
    (∀ q : Vec2, inBox q w →
      Vec2.sqrNorm (Vec2.sub (closest_point p w) p.center) ≤
        Vec2.sqrNorm (Vec2.sub q p.center)) ∧
    ((check_wall_collision p w).hit = true ↔
      0 < p.radius ∧
        Vec2.sqrNorm (Vec2.sub (closest_point p w) p.center) < p.radius ^ 2) ∧
    ((check_wall_collision p w).hit = true →
      (check_wall_collision p w).dir =
        vector_direction (Vec2.sub (closest_point p w) p.center) ∧
      (check_wall_collision p w).diff = Vec2.sub (closest_point p w) p.center) ∧
    ((check_wall_collision p w).hit = false →
      check_wall_collision p w = ⟨false, Direction.idx .UP, Vec2.zero⟩) := by
  have hbx : w.position.x ≤ w.position.x + w.size.x := by linarith
  have hby : w.position.y ≤ w.position.y + w.size.y := by linarith
  refine ⟨?_, ?_, ?_, ?_, ?_⟩
  · refine ⟨?_, ?_, ?_, ?_⟩
    · rw [closest_point_x]; exact (clampQ_le _ _ _ hbx).1
    · rw [closest_point_x]; exact (clampQ_le _ _ _ hbx).2
    · rw [closest_point_y]; exact (clampQ_le _ _ _ hby).1
    · rw [closest_point_y]; exact (clampQ_le _ _ _ hby).2
  · rintro q ⟨hq1, hq2, hq3, hq4⟩
    simp only [Vec2.sqrNorm, Vec2.sub]
    have h1 : ((closest_point p w).x - p.center.x) ^ 2 ≤ (q.x - p.center.x) ^ 2 := by
      rw [closest_point_x]; exact clampQ_nearest _ _ _ _ hq1 hq2
    have h2 : ((closest_point p w).y - p.center.y) ^ 2 ≤ (q.y - p.center.y) ^ 2 := by
      rw [closest_point_y]; exact clampQ_nearest _ _ _ _ hq3 hq4
    exact add_le_add h1 h2
  · simp only [check_wall_collision]
    split_ifs with hcol
    · simp only [true_iff]
      simpa only [lengthLt, decide_eq_true_eq] using hcol
    · simp only [Bool.false_eq_true, false_iff]
      simpa only [lengthLt, decide_eq_true_eq] using hcol
  · simp only [check_wall_collision]
    split_ifs with hcol
    · intro _; exact ⟨rfl, rfl⟩
    · intro h; exact absurd h (by simp)
  · simp only [check_wall_collision]
    split_ifs with hcol
    · intro h; exact absurd h (by simp)
    · intro _; rfl

/-- C2 witness: the amended characterization instantiated at the concrete
player/wall pair of the counterexample. -/
theorem check_wall_collision_characterization_witness :
    inBox (closest_point c2Player c2Wall) c2Wall ∧
    (∀ q : Vec2, inBox q c2Wall →
      Vec2.sqrNorm (Vec2.sub (closest_point c2Player c2Wall) c2Player.center) ≤
        Vec2.sqrNorm (Vec2.sub q c2Player.center)) ∧
    ((check_wall_collision c2Player c2Wall).hit = true ↔
      0 < c2Player.radius ∧
        Vec2.sqrNorm (Vec2.sub (closest_point c2Player c2Wall) c2Player.center) <
          c2Player.radius ^ 2) ∧
    ((check_wall_collision c2Player c2Wall).hit = true →
      (check_wall_collision c2Player c2Wall).dir =
        vector_direction (Vec2.sub (closest_point c2Player c2Wall) c2Player.center) ∧
      (check_wall_collision c2Player c2Wall).diff =
        Vec2.sub (closest_point c2Player c2Wall) c2Player.center) ∧
    ((check_wall_collision c2Player c2Wall).hit = false →
      check_wall_collision c2Player c2Wall = ⟨false, Direction.idx .UP, Vec2.zero⟩) :=
  check_wall_collision_characterization c2Player c2Wall (by decide) (by decide)

/-- The `LookDirection` enumeration (tilt_escape.hpp:74-76). -/
inductive LookDirection where
  | UP
  | UP_LEFT
  | LEFT
  | DOWN_LEFT
  | DOWN
  | DOWN_RIGHT
  | RIGHT
  | UP_RIGHT
deriving DecidableEq, Repr

/-- `std::roundf`: round to nearest, halves away from zero. -/
def roundf (q : ℚ) : ℚ :=
  if q < 0 then -((⌊-q + 1 / 2⌋ : ℤ) : ℚ) else ((⌊q + 1 / 2⌋ : ℤ) : ℚ)

/-- The `Guard` entity (tilt_escape.hpp:99-127).  The `GuardVision fov` member
is inlined as the three `fov_*` fields; the guard-local `std::mt19937` and the
global `std::rand` stream are not part of the state — `Guard.update` takes the
values they would produce as oracle arguments instead. -/
structure Guard where
  guard_id : ℤ
  position : Vec2
  radius : ℚ
  fov_radius : ℚ
  fov_distance : ℚ
  look_direction : LookDirection
  time_looking_in_direction : ℚ
  look_thresh : ℚ
  current_waypoint : Vec2
  next_waypoint : Vec2
  wait_thresh : ℚ
  time_at_waypoint : ℚ
  velocity : Vec2
  waypoints : List Vec2
deriving DecidableEq, Repr

/-- `Guard::at_current_waypoint` (tilt_escape.hpp:185-188). -/
def Guard.at_current_waypoint (g : Guard) : Bool :=
  decide (roundf g.position.x = g.current_waypoint.x ∧
    roundf g.position.y = g.current_waypoint.y)

/-- `Guard::at_next_waypoint` (tilt_escape.hpp:179-182). -/
def Guard.at_next_waypoint (g : Guard) : Bool :=
  decide (roundf g.position.x = g.next_waypoint.x ∧
    roundf g.position.y = g.next_waypoint.y)

/-- The tail of `Guard::update` after the waypoint-dwell block
(tilt_escape.hpp:152-177): the in-transit velocity recomputation, the arrival
handling, and the look-direction timer.  `rngDir` is the value
`mt() % 8` would produce and `rngThresh` the new `2*rand()/RAND_MAX`
threshold. -/
def Guard.post_update (g : Guard) (elapsed : ℚ) (rngDir : LookDirection)
    (rngThresh : ℚ) : Guard :=
  let g5 := if !g.at_current_waypoint && !g.at_next_waypoint then
      { g with velocity := Vec2.sub g.next_waypoint g.position }
    else g
  let g6 := if g5.at_next_waypoint && !g5.at_current_waypoint then
      { g5 with velocity := Vec2.zero, time_at_waypoint := 0,
                current_waypoint := g5.next_waypoint }
    else g5
  let g7 := { g6 with
    time_looking_in_direction := g6.time_looking_in_direction + elapsed }
  if g7.look_thresh ≤ g7.time_looking_in_direction then
    { g7 with time_looking_in_direction := 0, look_direction := rngDir,
              look_thresh := rngThresh }
  else g7

/-- `Guard::update` (tilt_escape.hpp:129-177).  `none` models the undefined
behaviour of `waypoints.front()` on an empty deque.  In the dwell branch the
C++ runs `velocity = next_waypoint - current_waypoint; velocity /=
velocity.length();` — glm's `vec2::length()` is the static component count 2,
not the Euclidean norm, so the division halves the direction vector instead
of normalising it. -/
def Guard.update (g0 : Guard) (elapsed : ℚ) (rngDir : LookDirection)
    (rngThresh : ℚ) : Option Guard :=
  let g1 := { g0 with position := g0.position + Vec2.smul elapsed g0.velocity }
  let step1 : Option Guard :=
    if g1.at_current_waypoint then
      let g2 := { g1 with time_at_waypoint := g1.time_at_waypoint + elapsed }
      if g2.wait_thresh ≤ g2.time_at_waypoint then
        match g2.waypoints with
        | [] => none
        | w :: ws =>
          let g3 := { g2 with next_waypoint := w, waypoints := ws ++ [w] }
          let v := Vec2.sub g3.next_waypoint g3.current_waypoint
          some { g3 with velocity := ⟨v.x / 2, v.y / 2⟩ }
      else some g2
    else some g1
  step1.map fun g4 => g4.post_update elapsed rngDir rngThresh

/-- iterate `Guard::update` over a sequence of frames, each frame carrying its
elapsed time and the two random-oracle values. -/
def runGuard (g : Guard) : List (ℚ × LookDirection × ℚ) → Option Guard
  | [] => some g
  | f :: fs => (g.update f.1 f.2.1 f.2.2).bind fun g' => runGuard g' fs

theorem post_update_waypoints (g : Guard) (e : ℚ) (d : LookDirection) (t : ℚ) :
    (g.post_update e d t).waypoints = g.waypoints := by
  simp only [Guard.post_update]
  split_ifs <;> rfl

theorem update_waypoints_step (g : Guard) (e : ℚ) (d : LookDirection) (t : ℚ)
    (h : g.waypoints ≠ []) :
    ∃ g', g.update e d t = some g' ∧
      (g'.waypoints = g.waypoints ∨ g'.waypoints = g.waypoints.rotate 1) := by
  obtain ⟨w, ws, hw⟩ := List.exists_cons_of_ne_nil h
  have hrot : (w :: ws).rotate 1 = ws ++ [w] := by
    rw [List.rotate_cons_succ, List.rotate_zero]
  simp only [Guard.update, hw]
  split_ifs <;>
    exact ⟨_, rfl, by simp [post_update_waypoints, hw, hrot]⟩

/-- C9: for a guard with a non-empty waypoint deque, any sequence of
`Guard::update` calls succeeds and only ever rotates the deque: the final
deque is a rotation of the original, so its length and its contents as a
multiset are preserved — the patrol route is never lost, reordered beyond
rotation, or emptied. -/
theorem guard_update_rotates_waypoints (g : Guard)
    (frames : List (ℚ × LookDirection × ℚ)) (h : g.waypoints ≠ []) :
    ∃ g' k, runGuard g frames = some g' ∧
      g'.waypoints = g.waypoints.rotate k ∧
      g'.waypoints.length = g.waypoints.length ∧
      (g'.waypoints : Multiset Vec2) = (g.waypoints : Multiset Vec2) := by
  induction frames generalizing g with
  | nil =>
    exact ⟨g, 0, rfl, (g.waypoints.rotate_zero).symm, rfl, rfl⟩
  | cons f fs ih =>
    obtain ⟨g1, hg1, hrot⟩ := update_waypoints_step g f.1 f.2.1 f.2.2 h
    have hne1 : g1.waypoints ≠ [] := by
      rcases hrot with hr | hr <;> rw [hr]
      · exact h
      · simp only [ne_eq, List.rotate_eq_nil_iff]
        exact h
    obtain ⟨g', k, hrun, hwp, _, _⟩ := ih g1 hne1
    have hwp' : ∃ k', g'.waypoints = g.waypoints.rotate k' := by
      rcases hrot with hr | hr
      · exact ⟨k, by rw [hwp, hr]⟩
      · exact ⟨1 + k, by rw [hwp, hr, List.rotate_rotate]⟩
    obtain ⟨k', hk'⟩ := hwp'
    refine ⟨g', k', ?_, hk', ?_, ?_⟩
    · simp only [runGuard, hg1, Option.bind_some]
      exact hrun
    · rw [hk', List.length_rotate]
    · rw [hk']
      exact Multiset.coe_eq_coe.2 (g.waypoints.rotate_perm k')

/-- concrete patrol guard used by the C9 witness. -/
def c9Guard : Guard :=
  { guard_id := 1, position := ⟨0, 0⟩, radius := 1 / 2, fov_radius := 1 / 2,
    fov_distance := 1, look_direction := .DOWN_RIGHT,
    time_looking_in_direction := 0, look_thresh := 10,
    current_waypoint := ⟨0, 0⟩, next_waypoint := ⟨0, 0⟩, wait_thresh := 0,
    time_at_waypoint := 0, velocity := Vec2.zero,
    waypoints := [⟨2, 0⟩, ⟨0, 0⟩] }

/-- C9 witness: the rotation invariant instantiated at a concrete guard and a
concrete two-frame run. -/
theorem guard_update_rotates_waypoints_witness :
    ∃ g' k, runGuard c9Guard [(1, .UP, 1), (1, .DOWN, 1)] = some g' ∧
      g'.waypoints = c9Guard.waypoints.rotate k ∧
      g'.waypoints.length = c9Guard.waypoints.length ∧
      (g'.waypoints : Multiset Vec2) = (c9Guard.waypoints : Multiset Vec2) :=
  guard_update_rotates_waypoints c9Guard [(1, .UP, 1), (1, .DOWN, 1)]
    (by decide)

theorem Vec2.smul_zero (s : ℚ) : Vec2.smul s Vec2.zero = Vec2.zero := by
  simp [Vec2.smul, Vec2.zero]

theorem Vec2.add_zero (v : Vec2) : v + Vec2.zero = v := by
  cases v
  simp [Vec2.add_def, Vec2.zero]

theorem Vec2.sub_self (v : Vec2) : Vec2.sub v v = Vec2.zero := by
  cases v
  simp [Vec2.sub, Vec2.zero]

/-- A guard parked on its own spawn cell `p`: it sits at `p` with zero
velocity, both tracked waypoints equal `p`, and the (non-empty) waypoint
deque holds only copies of `p` — the state `load_level` produces for a digit
that occurs exactly once in the map. -/
def Parked (g : Guard) (p : Vec2) : Prop :=
  g.position = p ∧ g.velocity = Vec2.zero ∧ g.current_waypoint = p ∧
  g.next_waypoint = p ∧ g.waypoints ≠ [] ∧ ∀ w ∈ g.waypoints, w = p

theorem parked_post (g : Guard) (p : Vec2) (h : Parked g p) (e : ℚ)
    (d : LookDirection) (t : ℚ) : Parked (g.post_update e d t) p := by
  obtain ⟨hpos, hvel, hcur, hnext, hne, hall⟩ := h
  have hsub : Vec2.sub g.next_waypoint g.position = Vec2.zero := by
    rw [hnext, hpos, Vec2.sub_self]
  simp only [Guard.post_update]
  split_ifs <;>
    refine ⟨hpos, ?_, ?_, hnext, hne, hall⟩ <;>
      first | rfl | exact hvel | exact hsub | exact hcur | exact hnext

theorem parked_update (g : Guard) (p : Vec2) (h : Parked g p) (e : ℚ)
    (d : LookDirection) (t : ℚ) :
    ∃ g', g.update e d t = some g' ∧ Parked g' p := by
  obtain ⟨hpos, hvel, hcur, hnext, hne, hall⟩ := h
  obtain ⟨w, ws, hw⟩ := List.exists_cons_of_ne_nil hne
  have hwp : w = p := hall w (by rw [hw]; exact List.mem_cons_self _ _)
  have hposval : g.position + Vec2.smul e g.velocity = p := by
    rw [hvel, Vec2.smul_zero, Vec2.add_zero, hpos]
  simp only [Guard.update]
  split_ifs with hb hwait
  · -- at the current waypoint, dwell threshold reached: the rotate branch
    rw [hw]
    refine ⟨_, rfl, ?_⟩
    apply parked_post
    refine ⟨hposval, ?_, hcur, hwp, by simp, ?_⟩
    · simp [Vec2.sub, Vec2.zero, hwp, hcur]
    · intro x hx
      rcases List.mem_append.1 hx with hx | hx
      · exact hall x (by rw [hw]; exact List.mem_cons_of_mem _ hx)
      · exact (List.mem_singleton.1 hx).trans hwp
  · -- at the current waypoint, still dwelling
    refine ⟨_, rfl, ?_⟩
    apply parked_post
    exact ⟨hposval, hvel, hcur, hnext, hne, hall⟩
  · -- not at the current waypoint
    refine ⟨_, rfl, ?_⟩
    apply parked_post
    exact ⟨hposval, hvel, hcur, hnext, hne, hall⟩

/-- C10: a guard whose waypoint deque holds only copies of its own spawn
position never moves: every sequence of `Guard::update` calls succeeds and
leaves the position at the spawn cell and the velocity at zero. -/
theorem parked_guard_stationary (g : Guard) (p : Vec2)
    (frames : List (ℚ × LookDirection × ℚ)) (h : Parked g p) :
    ∃ g', runGuard g frames = some g' ∧ g'.position = p ∧
      g'.velocity = Vec2.zero := by
  induction frames generalizing g with
  | nil => exact ⟨g, rfl, h.1, h.2.1⟩
  | cons f fs ih =>
    obtain ⟨g1, hg1, hP1⟩ := parked_update g p h f.1 f.2.1 f.2.2
    obtain ⟨g', hrun, hgpos, hgvel⟩ := ih g1 hP1
    exact ⟨g', by simp only [runGuard, hg1, Option.some_bind]; exact hrun,
      hgpos, hgvel⟩

/-- concrete single-waypoint guard used by the C10 witness: its digit occurs
once, so every waypoint is its spawn cell (2, 3). -/
def c10Guard : Guard :=
  { guard_id := 3, position := ⟨2, 3⟩, radius := 1 / 2, fov_radius := 1 / 2,
    fov_distance := 1, look_direction := .DOWN_RIGHT,
    time_looking_in_direction := 0, look_thresh := 1 / 2,
    current_waypoint := ⟨2, 3⟩, next_waypoint := ⟨2, 3⟩, wait_thresh := 1 / 4,
    time_at_waypoint := 0, velocity := Vec2.zero, waypoints := [⟨2, 3⟩] }

/-- C10 witness: the stationarity theorem instantiated at a concrete parked
guard and a concrete three-frame run. -/
theorem parked_guard_stationary_witness :
    ∃ g', runGuard c10Guard [(1, .LEFT, 0), (2, .UP, 5), (1 / 4, .DOWN, 1)] =
        some g' ∧
      g'.position = (⟨2, 3⟩ : Vec2) ∧ g'.velocity = Vec2.zero :=
  parked_guard_stationary c10Guard ⟨2, 3⟩ [(1, .LEFT, 0), (2, .UP, 5), (1 / 4, .DOWN, 1)]
    ⟨rfl, rfl, rfl, rfl, by simp [c10Guard], by simp [c10Guard]⟩

/-- concrete guard for the C1 failing evaluation: parked at the origin with
zero dwell threshold, the next patrol target being the non-zero direction
(1, 0) away. -/
def c1Guard : Guard :=
  { guard_id := 0, position := ⟨0, 0⟩, radius := 1 / 2, fov_radius := 1 / 2,
    fov_distance := 1, look_direction := .DOWN_RIGHT,
    time_looking_in_direction := 0, look_thresh := 10,
    current_waypoint := ⟨0, 0⟩, next_waypoint := ⟨0, 0⟩, wait_thresh := 0,
    time_at_waypoint := 0, velocity := Vec2.zero,
    waypoints := [⟨1, 0⟩, ⟨0, 0⟩] }

/-- C1: failing evaluation.  The guard sits at its current waypoint (0,0)
with `time_at_waypoint ≥ wait_thresh`, and the popped front waypoint (1,0)
gives the non-zero direction (1,0), whose normalisation is the unit vector
(1,0).  `Guard::update` instead sets the velocity to (1/2, 0) — the direction
divided by glm's `vec2::length()`, the component count 2 — whose squared norm
is 1/4, not 1.  (`next_waypoint` is correctly set to the popped front.) -/
theorem guard_waypoint_velocity_not_normalized :
    (c1Guard.update 1 .UP 1).map Guard.velocity = some ⟨1 / 2, 0⟩ ∧
    (c1Guard.update 1 .UP 1).map Guard.next_waypoint = some ⟨1, 0⟩ ∧
    Vec2.sqrNorm ⟨1 / 2, 0⟩ ≠ 1 ∧
    Vec2.sub (⟨1, 0⟩ : Vec2) c1Guard.current_waypoint ≠ Vec2.zero := by
  have hround : roundf 0 = 0 := by
    norm_num [roundf, Int.floor_eq_iff]
  have hup : c1Guard.update 1 .UP 1 = some
      { guard_id := 0, position := ⟨0, 0⟩, radius := 1 / 2, fov_radius := 1 / 2,
        fov_distance := 1, look_direction := .DOWN_RIGHT,
        time_looking_in_direction := 1, look_thresh := 10,
        current_waypoint := ⟨0, 0⟩, next_waypoint := ⟨1, 0⟩, wait_thresh := 0,
        time_at_waypoint := 1, velocity := ⟨1 / 2, 0⟩,
        waypoints := [⟨0, 0⟩, ⟨1, 0⟩] } := by
    norm_num [Guard.update, Guard.post_update, Guard.at_current_waypoint,
      Guard.at_next_waypoint, c1Guard, hround, Vec2.smul, Vec2.add_def,
      Vec2.sub, Vec2.zero]
  rw [hup]
  refine ⟨rfl, rfl, by norm_num [Vec2.sqrNorm], ?_⟩
  norm_num [Vec2.sub, Vec2.zero, c1Guard, Vec2.mk.injEq]

/-- The per-frame tilt-control flags (`Game::controls`, Game.hpp). -/
structure Controls where
  tilt_left : Bool
  tilt_right : Bool
  tilt_up : Bool
  tilt_down : Bool
deriving DecidableEq, Repr

/-- `TILT_ANGLE = 45.0f` (Game.hpp); the numeric value the code passes to
`std::sin`. -/
def TILT_ANGLE : ℚ := 45

/-- `calculate_acceleration` (Game.cpp:1031-1034).  `std::sin` is modelled as
an oracle function `sinf` — its value at the argument is transcendental and
irrelevant to the algebraic structure of the update. -/
def calculate_acceleration (sinf : ℚ → ℚ) (incline_angle gravity : ℚ) : ℚ :=
  (2 / 3) * gravity * sinf incline_angle

/-- `calculate_displacement` (Game.cpp:1038-1041):
`velocity * time + (1/2) * acceleration * time²`, componentwise. -/
def calculate_displacement (time : ℚ) (velocity accel : Vec2) : Vec2 :=
  ⟨velocity.x * time + 1 / 2 * accel.x * time ^ 2,
   velocity.y * time + 1 / 2 * accel.y * time ^ 2⟩

/-- The tilt-acceleration block of `Game::update` (Game.cpp:784-800): four
sequential `if`s overwrite `acc_x`/`acc_y`, so if opposing flags on one axis
are both set, the later-evaluated one (right on X, down on Y) wins. -/
def player_acceleration_of (sinf : ℚ → ℚ) (c : Controls) (gravity : ℚ) : Vec2 :=
  let acc_x : ℚ := 0
  let acc_x := if c.tilt_left then calculate_acceleration sinf TILT_ANGLE gravity
    else acc_x
  let acc_x := if c.tilt_right then calculate_acceleration sinf (-TILT_ANGLE) gravity
    else acc_x
  let acc_y : ℚ := 0
  let acc_y := if c.tilt_up then calculate_acceleration sinf (-TILT_ANGLE) gravity
    else acc_y
  let acc_y := if c.tilt_down then calculate_acceleration sinf TILT_ANGLE gravity
    else acc_y
  ⟨acc_x, acc_y⟩

/-- The player-physics fragment of `Game::update` (Game.cpp:800-806):
displacement from the current velocity and this frame's acceleration, then
`velocity += acceleration * elapsed`, then `position += displacement` — the
displacement was computed from the pre-update velocity and the same
acceleration. -/
def physics_step (sinf : ℚ → ℚ) (c : Controls) (gravity elapsed : ℚ)
    (p : Player) : Player :=
  let player_acceleration := player_acceleration_of sinf c gravity
  let displacement := calculate_displacement elapsed p.velocity player_acceleration
  { p with
    velocity := p.velocity + Vec2.smul elapsed player_acceleration,
    position := ⟨p.position.x + displacement.x, p.position.y + displacement.y⟩ }

/-- C7: each frame the per-axis acceleration is `(2/3)*gravity*sin(±45)` with
the sign picked by the active tilt flag (left/right on X, up/down on Y) and
the later-evaluated flag winning when both are set (right over left, down
over up); the frame displacement is `v*t + (1/2)*a*t²`, the new velocity is
`v + a*t`, and both use the same acceleration value `a` computed from this
frame's tilt state. -/
theorem player_physics_step_spec (sinf : ℚ → ℚ) (c : Controls)
    (gravity e : ℚ) (p : Player) :
    (player_acceleration_of sinf c gravity).x =
      (if c.tilt_right then 2 / 3 * gravity * sinf (-45)
       else if c.tilt_left then 2 / 3 * gravity * sinf 45 else 0) ∧
    (player_acceleration_of sinf c gravity).y =
      (if c.tilt_down then 2 / 3 * gravity * sinf 45
       else if c.tilt_up then 2 / 3 * gravity * sinf (-45) else 0) ∧
    (physics_step sinf c gravity e p).position =
      ⟨p.position.x + (p.velocity.x * e +
          1 / 2 * (player_acceleration_of sinf c gravity).x * e ^ 2),
        p.position.y + (p.velocity.y * e +
          1 / 2 * (player_acceleration_of sinf c gravity).y * e ^ 2)⟩ ∧
    (physics_step sinf c gravity e p).velocity =
      ⟨p.velocity.x + (player_acceleration_of sinf c gravity).x * e,
        p.velocity.y + (player_acceleration_of sinf c gravity).y * e⟩ := by
  obtain ⟨l, r, u, dn⟩ := c
  cases l <;> cases r <;> cases u <;> cases dn <;>
    simp [player_acceleration_of, calculate_acceleration, physics_step,
      calculate_displacement, TILT_ANGLE, Vec2.smul, Vec2.add_def, mul_comm]

/-- The `Level` aggregate (tilt_escape.hpp:270-280); `player` starts as the
default-constructed `Player()`. -/
structure Level where
  level_matrix : List (List Char)
  walls : List Wall
  player : Player
  guards : List Guard
  holes : List Vec2

/-- the freshly constructed `Level()` before `load_level` runs. -/
def Level.empty : Level := ⟨[], [], Player.default, [], []⟩

/-- `Level::get_guard_index` (tilt_escape.hpp:366-375): index of the first
guard with the given id, `none` for the C++ return value -1. -/
def get_guard_index (guards : List Guard) (gid : ℤ) : Option ℕ :=
  guards.findIdx? fun g => decide (g.guard_id = gid)

/-- The guard state the first occurrence of a digit creates
(tilt_escape.hpp:334-340 together with the `Guard` constructor at
tilt_escape.hpp:115-127): default `GuardVision()` (radius 0.5, distance 1.0,
DOWN_RIGHT), zero look timer, both tracked waypoints at the spawn cell, the
spawn cell as the sole queued waypoint.  `lookT`/`waitT` stand for the two
`2.0f * rand() / RAND_MAX` draws; `time_at_waypoint` is never initialised in
the C++ constructor, so its indeterminate value is the `uninit` oracle. -/
def mkGuard (pos : Vec2) (gid : ℤ) (lookT waitT uninit : ℚ) : Guard :=
  { guard_id := gid, position := pos, radius := 1 / 2, fov_radius := 1 / 2,
    fov_distance := 1, look_direction := .DOWN_RIGHT,
    time_looking_in_direction := 0, look_thresh := lookT,
    current_waypoint := pos, next_waypoint := pos, wait_thresh := waitT,
    time_at_waypoint := uninit, velocity := Vec2.zero, waypoints := [pos] }

/-- One character of the `load_level` scan (tilt_escape.hpp:305-345).  The
C++ tests `'#'`, `'P'`, `'H'`, `isdigit` with four independent `if`s on the
same character; at most one can match, so the if-else chain is equivalent.
`col` is the loop index `i`, `row` is `level_matrix.size()` while the line is
scanned, and the state carries the index of the next `std::rand` draw. -/
def processCell (rng : ℕ → ℚ) (uninit : ℚ) (col row : ℕ) (c : Char)
    (st : Level × ℕ) : Level × ℕ :=
  let lv := st.1
  let k := st.2
  if c = '#' then
    ({ lv with walls := lv.walls ++ [⟨⟨col, row⟩, ⟨1, 1⟩⟩] }, k)
  else if c = 'P' then
    ({ lv with player := ⟨⟨col, row⟩, 1 / 2, Vec2.zero⟩ }, k)
  else if c = 'H' then
    ({ lv with holes := lv.holes ++ [⟨col, row⟩] }, k)
  else if c.isDigit then
    let gid : ℤ := (c.toNat : ℤ) - ('0'.toNat : ℤ)
    match get_guard_index lv.guards gid with
    | some i =>
      let addWaypoint := fun g : Guard =>
        { g with waypoints := g.waypoints ++ [(⟨col, row⟩ : Vec2)] }
      ({ lv with guards := List.modify addWaypoint i lv.guards }, k)
    | none =>
      ({ lv with guards := lv.guards ++
          [mkGuard ⟨col, row⟩ gid (rng k) (rng (k + 1)) uninit] }, k + 2)
  else
    (lv, k)

/-- the inner for-loop of `load_level` over one line. -/
def processRow (rng : ℕ → ℚ) (uninit : ℚ) (row : ℕ) :
    List Char → ℕ → Level × ℕ → Level × ℕ
  | [], _, st => st
  | c :: rest, col, st =>
      processRow rng uninit row rest (col + 1) (processCell rng uninit col row c st)

/-- the outer while-getline loop of `load_level` (tilt_escape.hpp:302-349):
each scanned line is afterwards appended verbatim to `level_matrix`, so the
row index used while scanning a line is the matrix length at that moment. -/
def processRows (rng : ℕ → ℚ) (uninit : ℚ) :
    List (List Char) → Level × ℕ → Level × ℕ
  | [], st => st
  | r :: rest, st =>
      let st2 := processRow rng uninit st.1.level_matrix.length r 0 st
      processRows rng uninit rest
        ({ st2.1 with level_matrix := st2.1.level_matrix ++ [r] }, st2.2)

/-- `Level::load_level` (tilt_escape.hpp:288-352) on an already-read list of
lines — file opening and `data_path` resolution are external collaborators;
an unreadable file leaves the level empty, which corresponds to `lines = []`. -/
def load_level (rng : ℕ → ℚ) (uninit : ℚ) (lines : List (List Char)) : Level :=
  (processRows rng uninit lines (Level.empty, 0)).1

/-- Spec-side extraction: positions of the occurrences of `c` in one row, in
scan order, columns starting at `col`. -/
def rowCells (c : Char) (row : ℕ) : List Char → ℕ → List Vec2
  | [], _ => []
  | a :: rest, col =>
      (if a = c then [⟨col, row⟩] else []) ++ rowCells c row rest (col + 1)

/-- Spec-side extraction: positions of the occurrences of `c` in the grid,
row-major scan order, row indices starting at `row`. -/
def gridCells (c : Char) : List (List Char) → ℕ → List Vec2
  | [], _ => []
  | r :: rest, row => rowCells c row r 0 ++ gridCells c rest (row + 1)

/-- "last `P` wins": folding the overwrite over the scanned `P` cells. -/
def lastPlayer (cells : List Vec2) (dflt : Player) : Player :=
  cells.foldl (fun _ pos => ⟨pos, 1 / 2, Vec2.zero⟩) dflt

theorem lastPlayer_eq (cells : List Vec2) (dflt : Player) :
    lastPlayer cells dflt =
      cells.getLast?.elim dflt (fun pos => ⟨pos, 1 / 2, Vec2.zero⟩) := by
  induction cells generalizing dflt with
  | nil => rfl
  | cons a rest ih =>
    cases rest with
    | nil => rfl
    | cons b l =>
      have h1 : lastPlayer (a :: b :: l) dflt = lastPlayer (b :: l) ⟨a, 1 / 2, Vec2.zero⟩ := rfl
      rw [h1, ih, List.getLast?_cons_cons]
      rcases hx : (b :: l).getLast? with _ | x
      · exact absurd (List.getLast?_eq_none_iff.1 hx) (by simp)
      · rfl

theorem processCell_walls (rng : ℕ → ℚ) (u : ℚ) (col row : ℕ) (c : Char)
    (st : Level × ℕ) :
    (processCell rng u col row c st).1.walls =
      st.1.walls ++ (if c = '#' then [(⟨⟨col, row⟩, ⟨1, 1⟩⟩ : Wall)] else []) := by
  by_cases h : c = '#'
  · subst h
    simp [processCell]
  · rw [if_neg h, List.append_nil]
    simp only [processCell]
    split_ifs <;> first | rfl | (split <;> rfl)

theorem processCell_holes (rng : ℕ → ℚ) (u : ℚ) (col row : ℕ) (c : Char)
    (st : Level × ℕ) :
    (processCell rng u col row c st).1.holes =
      st.1.holes ++ (if c = 'H' then [(⟨col, row⟩ : Vec2)] else []) := by
  by_cases h : c = 'H'
  · subst h
    simp [processCell]
  · rw [if_neg h, List.append_nil]
    simp only [processCell]
    split_ifs <;> first | rfl | (split <;> rfl)

theorem processCell_player (rng : ℕ → ℚ) (u : ℚ) (col row : ℕ) (c : Char)
    (st : Level × ℕ) :
    (processCell rng u col row c st).1.player =
      (if c = 'P' then (⟨⟨col, row⟩, 1 / 2, Vec2.zero⟩ : Player) else st.1.player) := by
  by_cases h : c = 'P'
  · subst h
    simp [processCell]
  · rw [if_neg h]
    simp only [processCell]
    split_ifs <;> first | rfl | (split <;> rfl)

theorem processCell_matrix (rng : ℕ → ℚ) (u : ℚ) (col row : ℕ) (c : Char)
    (st : Level × ℕ) :
    (processCell rng u col row c st).1.level_matrix = st.1.level_matrix := by
  simp only [processCell]
  split_ifs <;> first | rfl | (split <;> rfl)

theorem processRow_walls (rng : ℕ → ℚ) (u : ℚ) (row : ℕ) (r : List Char)
    (col : ℕ) (st : Level × ℕ) :
    (processRow rng u row r col st).1.walls =
      st.1.walls ++ (rowCells '#' row r col).map (fun pos => (⟨pos, ⟨1, 1⟩⟩ : Wall)) := by
  induction r generalizing col st with
  | nil => simp [processRow, rowCells]
  | cons a rest ih =>
    simp only [processRow, rowCells]
    rw [ih, processCell_walls]
    by_cases h : a = '#'
    · simp [h, List.append_assoc]
    · simp [h]

theorem processRow_holes (rng : ℕ → ℚ) (u : ℚ) (row : ℕ) (r : List Char)
    (col : ℕ) (st : Level × ℕ) :
    (processRow rng u row r col st).1.holes =
      st.1.holes ++ rowCells 'H' row r col := by
  induction r generalizing col st with
  | nil => simp [processRow, rowCells]
  | cons a rest ih =>
    simp only [processRow, rowCells]
    rw [ih, processCell_holes]
    by_cases h : a = 'H'
    · simp [h, List.append_assoc]
    · simp [h]

theorem processRow_player (rng : ℕ → ℚ) (u : ℚ) (row : ℕ) (r : List Char)
    (col : ℕ) (st : Level × ℕ) :
    (processRow rng u row r col st).1.player =
      lastPlayer (rowCells 'P' row r col) st.1.player := by
  induction r generalizing col st with
  | nil => simp [processRow, rowCells, lastPlayer]
  | cons a rest ih =>
    simp only [processRow, rowCells]
    rw [ih, processCell_player]
    by_cases h : a = 'P'
    · simp [h, lastPlayer, List.foldl_append]
    · simp [h, lastPlayer, List.foldl_append]

theorem processRow_matrix (rng : ℕ → ℚ) (u : ℚ) (row : ℕ) (r : List Char)
    (col : ℕ) (st : Level × ℕ) :
    (processRow rng u row r col st).1.level_matrix = st.1.level_matrix := by
  induction r generalizing col st with
  | nil => rfl
  | cons a rest ih =>
    simp only [processRow]
    rw [ih, processCell_matrix]

theorem processRows_walls (rng : ℕ → ℚ) (u : ℚ) (rows : List (List Char))
    (st : Level × ℕ) :
    (processRows rng u rows st).1.walls =
      st.1.walls ++ (gridCells '#' rows st.1.level_matrix.length).map
        (fun pos => (⟨pos, ⟨1, 1⟩⟩ : Wall)) := by
  induction rows generalizing st with
  | nil => simp [processRows, gridCells]
  | cons r rest ih =>
    simp only [processRows, gridCells]
    rw [ih]
    simp [processRow_walls, processRow_matrix, List.append_assoc]

theorem processRows_holes (rng : ℕ → ℚ) (u : ℚ) (rows : List (List Char))
    (st : Level × ℕ) :
    (processRows rng u rows st).1.holes =
      st.1.holes ++ gridCells 'H' rows st.1.level_matrix.length := by
  induction rows generalizing st with
  | nil => simp [processRows, gridCells]
  | cons r rest ih =>
    simp only [processRows, gridCells]
    rw [ih]
    simp [processRow_holes, processRow_matrix, List.append_assoc]

theorem processRows_player (rng : ℕ → ℚ) (u : ℚ) (rows : List (List Char))
    (st : Level × ℕ) :
    (processRows rng u rows st).1.player =
      lastPlayer (gridCells 'P' rows st.1.level_matrix.length) st.1.player := by
  induction rows generalizing st with
  | nil => simp [processRows, gridCells, lastPlayer]
  | cons r rest ih =>
    simp only [processRows, gridCells]
    rw [ih]
    simp [processRow_player, processRow_matrix, lastPlayer, List.foldl_append]

/-- C8: `load_level` scans rows top-to-bottom, columns left-to-right: the wall
list is exactly the `'#'` cells (in scan order) as unit-size walls, the hole
list is exactly the `'H'` cells, and the player is a radius-1/2 `Player` at
the last `'P'` cell in scan order (the default player if there is none) —
each `'P'` overwrites the previous one.  In particular the map
`["#P", "H"]` yields one wall at (0,0), one hole at (0,1), and the player at
(1,0). -/
theorem load_level_spec (rng : ℕ → ℚ) (uninit : ℚ) (lines : List (List Char)) :
    (load_level rng uninit lines).walls =
      (gridCells '#' lines 0).map (fun pos => (⟨pos, ⟨1, 1⟩⟩ : Wall)) ∧
    (load_level rng uninit lines).holes = gridCells 'H' lines 0 ∧
    (load_level rng uninit lines).player =
      (gridCells 'P' lines 0).getLast?.elim Player.default
        (fun pos => ⟨pos, 1 / 2, Vec2.zero⟩) ∧
    (load_level rng uninit [['#', 'P'], ['H']]).walls = [⟨⟨0, 0⟩, ⟨1, 1⟩⟩] ∧
    (load_level rng uninit [['#', 'P'], ['H']]).holes = [⟨0, 1⟩] ∧
    (load_level rng uninit [['#', 'P'], ['H']]).player = ⟨⟨1, 0⟩, 1 / 2, Vec2.zero⟩ := by
  have hwalls : ∀ ls : List (List Char), (load_level rng uninit ls).walls =
      (gridCells '#' ls 0).map (fun pos => (⟨pos, ⟨1, 1⟩⟩ : Wall)) := by
    intro ls
    have h := processRows_walls rng uninit ls (Level.empty, 0)
    simpa [load_level, Level.empty] using h
  have hholes : ∀ ls : List (List Char), (load_level rng uninit ls).holes =
      gridCells 'H' ls 0 := by
    intro ls
    have h := processRows_holes rng uninit ls (Level.empty, 0)
    simpa [load_level, Level.empty] using h
  have hplayer : ∀ ls : List (List Char), (load_level rng uninit ls).player =
      (gridCells 'P' ls 0).getLast?.elim Player.default
        (fun pos => ⟨pos, 1 / 2, Vec2.zero⟩) := by
    intro ls
    have h := processRows_player rng uninit ls (Level.empty, 0)
    rw [← lastPlayer_eq]
    simpa [load_level, Level.empty] using h
  have hPw : ('P' : Char) ≠ '#' := by decide
  have hHw : ('H' : Char) ≠ '#' := by decide
  have hwH : ('#' : Char) ≠ 'H' := by decide
  have hPH : ('P' : Char) ≠ 'H' := by decide
  have hwP : ('#' : Char) ≠ 'P' := by decide
  have hHP : ('H' : Char) ≠ 'P' := by decide
  refine ⟨hwalls lines, hholes lines, hplayer lines, ?_, ?_, ?_⟩
  · rw [hwalls]
    norm_num [gridCells, rowCells, hPw, hHw]
  · rw [hholes]
    norm_num [gridCells, rowCells, hwH, hPH]
  · rw [hplayer]
    norm_num [gridCells, rowCells, hwP, hHP]

end TiltEscape
